import Mathlib

/-!
Verification of the `reap` crate: a region-based arena allocator with an
internal free list and a reference-counted smart pointer (`Rp`).

The embedding is parametric in the element size `sz : Nat`
(`mem::size_of::<T>()` in the source) and in the value type `V` carried by
slots.  Addresses are byte addresses modelled as `Nat`; fresh chunk base
addresses are handed out by a `nextBase` counter, reflecting the fact that
the system allocator returns pairwise-disjoint regions.  `usize` arithmetic
that can overflow (the capacity doubling in `grow`) is modelled with an
explicit bound `USIZE`; an aborting `expect` is modelled as `Option.none`.
A trace of destructor-run and free-list-push events records the order of
observable effects of `deallocate`.
-/

set_option autoImplicit false

namespace Reap

/-- Default initial capacity in bytes (`const PAGE: usize = 4096`). -/
def PAGE : Nat := 4096

/-- Largest value of `usize` (`!0`), for a 64-bit target. -/
def USIZE : Nat := 2 ^ 64 - 1

/-- The sentinel address used for zero-sized types (`1 as *mut T`,
standing in for `heap::EMPTY`). -/
def ZST_SENTINEL : Nat := 1

/-- A `Chunk<T>`: one contiguous allocation inside the `Reap`.  `base`
models the `ptr` field (address of the allocation) and `cap` the stored
capacity field. -/
structure Chunk where
  base : Nat
  cap : Nat
deriving DecidableEq, Repr

namespace Chunk

/-- `Chunk::start`: pointer to the start of the allocated space. -/
def start (c : Chunk) : Nat := c.base

/-- `Chunk::capacity`: `!0` for zero-sized element types, otherwise the
stored capacity. -/
def capacity (sz : Nat) (c : Chunk) : Nat :=
  if sz = 0 then USIZE else c.cap

/-- `Chunk::end`: a maximal sentinel address for zero-sized element types,
otherwise `start().offset(capacity())`, i.e. `base + cap * sz` in bytes. -/
def endAddr (sz : Nat) (c : Chunk) : Nat :=
  if sz = 0 then USIZE else c.base + c.cap * sz

end Chunk

/-- Observable effects of `Reap::deallocate`, in program order:
`ptr::drop_in_place(ptr)` and `freelist.push(ptr)`. -/
inductive Event where
  | dropRun (addr : Nat)
  | freePush (addr : Nat)
deriving DecidableEq, Repr

/-- State of an `InnerReap<T>`.  `ptr`/`endp` are the bump cursor and the
current chunk limit (`Cell<*mut T>` fields), `chunks` and `freelist` the
two `RefCell<Vec<_>>` fields (the freelist is a stack with its top at the
list head).  `nextBase` models the system allocator's fresh-address
supply, `mem` the heap contents (latest write first), and `trace` the
sequence of observable deallocation effects. -/
structure ReapState (V : Type) where
  ptr : Nat
  endp : Nat
  chunks : List Chunk
  freelist : List Nat
  nextBase : Nat
  mem : List (Nat × V)
  trace : List Event
deriving DecidableEq

/-- Read the most recent write at address `a` (the result of dereferencing
a raw pointer; `none` models a read of uninitialized memory). -/
def memRead {V : Type} : List (Nat × V) → Nat → Option V
  | [], _ => none
  | (b, v) :: rest, a => if a = b then some v else memRead rest a

/-- `Reap::new()`: cursor and limit both null so the first allocation
grows; no chunks, empty freelist.  The fresh-address supply starts at an
arbitrary nonzero page-aligned address. -/
def ReapState.new (V : Type) : ReapState V :=
  { ptr := 0, endp := 0, chunks := [], freelist := [], nextBase := 4096,
    mem := [], trace := [] }

/-- `Reap::grow` (private): compute the next chunk capacity — double the
last chunk's `capacity()` (aborting, i.e. `none`, when `checked_mul`
overflows `usize`) or `PAGE / max 1 size_of::<T>()` when no chunk exists —
then append the new chunk and reset cursor and limit to it. -/
def grow {V : Type} (sz : Nat) (s : ReapState V) : Option (ReapState V) :=
  match s.chunks.getLast? with
  | some last =>
      if Chunk.capacity sz last * 2 ≤ USIZE then
        let c : Chunk := { base := s.nextBase, cap := Chunk.capacity sz last * 2 }
        some { s with ptr := c.start, endp := Chunk.endAddr sz c,
                      chunks := s.chunks ++ [c],
                      nextBase := s.nextBase + c.cap * sz }
      else
        none
  | none =>
      let c : Chunk := { base := s.nextBase, cap := PAGE / max 1 sz }
      some { s with ptr := c.start, endp := Chunk.endAddr sz c,
                    chunks := s.chunks ++ [c],
                    nextBase := s.nextBase + c.cap * sz }

/-- `Reap::allocate`: for a zero-sized type, bump the imaginary cursor by
one byte and store at the sentinel address; otherwise pop the freelist if
possible; otherwise grow when the cursor has reached the limit, then place
the object at the cursor and advance the cursor by one slot (`sz` bytes).
Returns the slot address handed to the new `Rp` (`none` models the
capacity-overflow abort). -/
def allocate {V : Type} (sz : Nat) (v : V) (s : ReapState V) :
    Option (Nat × ReapState V) :=
  if sz = 0 then
    some (ZST_SENTINEL,
      { s with ptr := s.ptr + 1, mem := (ZST_SENTINEL, v) :: s.mem })
  else
    match s.freelist with
    | loc :: rest =>
        some (loc, { s with freelist := rest, mem := (loc, v) :: s.mem })
    | [] =>
        match (if s.ptr = s.endp then grow sz s else some s) with
        | none => none
        | some s1 =>
            some (s1.ptr, { s1 with ptr := s1.ptr + sz,
                                    mem := (s1.ptr, v) :: s1.mem })

/-- `Reap::deallocate`: run the destructor of the object at `a`
(`ptr::drop_in_place`), then push `a` onto the freelist.  Both effects are
recorded on the trace in program order. -/
def deallocate {V : Type} (a : Nat) (s : ReapState V) : ReapState V :=
  let s1 := { s with trace := s.trace ++ [Event.dropRun a] }
  { s1 with freelist := a :: s1.freelist,
            trace := s1.trace ++ [Event.freePush a] }

/-- Number of destructor runs at address `a` recorded on a trace. -/
def countDrops (a : Nat) (tr : List Event) : Nat :=
  (tr.filter (fun e => e = Event.dropRun a)).length

/-- The smart pointer `Rp<T>`: its raw slot address.  (The embedded
`Reap<T>` handle is represented at the `World` level.) -/
structure Rp where
  ptr : Nat
deriving DecidableEq, Repr

/-- `Deref for Rp`: read the pointee. -/
def derefRp {V : Type} (rp : Rp) (s : ReapState V) : Option V :=
  memRead s.mem rp.ptr

/-- `DerefMut for Rp`: write the pointee. -/
def writeRp {V : Type} (rp : Rp) (v : V) (s : ReapState V) : ReapState V :=
  { s with mem := (rp.ptr, v) :: s.mem }

/-- A `Reap<T>` handle together with its `Rc` strong count: the arena
state plus the number of outstanding shared holders. -/
structure World (V : Type) where
  reap : ReapState V
  refcount : Nat
deriving DecidableEq

/-- `Reap::clone` (`Rc` clone): increments the strong count. -/
def reapClone {V : Type} (w : World V) : World V :=
  { w with refcount := w.refcount + 1 }

/-- `Reap::allocate` at the world level: every successful allocation
builds its `Rp` with `Rp::from_raw(ptr, self.clone())`, incrementing the
strong count. -/
def wAllocate {V : Type} (sz : Nat) (v : V) (w : World V) :
    Option (Rp × World V) :=
  (allocate sz v w.reap).map fun pr =>
    ({ ptr := pr.1 }, { reap := pr.2, refcount := w.refcount + 1 })

/-- `Drop for Rp` (normal destruction): call `deallocate(self.ptr)`, then
the embedded `Reap` handle is dropped, decrementing the strong count. -/
def wDropRp {V : Type} (rp : Rp) (w : World V) : World V :=
  { reap := deallocate rp.ptr w.reap, refcount := w.refcount - 1 }

/-- `Rp::into_raw`: consume the `Rp`, returning the wrapped pointer and
the associated `Reap` handle.  The handle is moved out with
`mem::replace`, and `mem::forget` suppresses the destructor, so neither
`deallocate` nor a refcount change happens. -/
def intoRaw {V : Type} (rp : Rp) (w : World V) : Nat × World V :=
  (rp.ptr, w)

/-- `Rp::from_raw`: rebuild an `Rp` from a raw pointer and an owned
`Reap` handle; a plain field assembly with no arena effect. -/
def fromRaw {V : Type} (p : Nat) (w : World V) : Rp × World V :=
  ({ ptr := p }, w)

/-- `PartialEq for Rp`: `PartialEq::eq(&**self, &**other)` — compare the
pointees through the raw derefs. -/
def rpEq {V : Type} (eqV : V → V → Bool) (s : ReapState V) (a b : Rp) :
    Option Bool :=
  match derefRp a s, derefRp b s with
  | some x, some y => some (eqV x y)
  | _, _ => none

/-- `Ord for Rp`: `Ord::cmp(&**self, &**other)`. -/
def rpCmp {V : Type} (cmpV : V → V → Ordering) (s : ReapState V)
    (a b : Rp) : Option Ordering :=
  match derefRp a s, derefRp b s with
  | some x, some y => some (cmpV x y)
  | _, _ => none

/-- `Hash for Rp`: `(**self).hash(state)` — hash the pointee. -/
def rpHash {V : Type} (hashV : V → Nat) (s : ReapState V) (a : Rp) :
    Option Nat :=
  match derefRp a s with
  | some x => some (hashV x)
  | none => none

end Reap

namespace Reap

/-- Modelled from the spec: "the first chunk's capacity is the number of T
objects fitting in one memory page (pageBytes divided by the element size,
rounded up), with a minimum of 1 for element types whose size exceeds one
page" — i.e. `max 1 ⌈PAGE / sz⌉`. -/
def specFirstChunkCap (sz : Nat) : Nat :=
  max 1 ((PAGE + sz - 1) / sz)

/-- C1 is false as stated: at element size 3 the code sizes the first
chunk as `PAGE / 3 = 1365` (flooring), while the claim's
rounded-up-with-minimum-1 formula gives 1366. -/
theorem grow_first_chunk_cap_cex :
    (grow 3 (ReapState.new Unit)).map (fun s => s.chunks.map Chunk.cap)
      = some [1365]
    ∧ specFirstChunkCap 3 = 1366 ∧ (1365 : Nat) ≠ 1366 := by
  refine ⟨rfl, by decide, by decide⟩

/-- C1 (amended): `grow` appends exactly one chunk and resets the cursor
and limit to it; the new chunk's capacity is double the most recent
chunk's `capacity()` when a chunk exists, and otherwise `PAGE` divided
(flooring, with no minimum-1 adjustment) by `max 1 size` — so 0 for an
element type larger than one page. -/
theorem grow_capacity {V : Type} (sz : Nat) (s s' : ReapState V)
    (h : grow sz s = some s') :
    ∃ c : Chunk,
      s'.chunks = s.chunks ++ [c] ∧ s'.ptr = c.start
      ∧ s'.endp = Chunk.endAddr sz c
      ∧ (∀ last, s.chunks.getLast? = some last →
          c.cap = Chunk.capacity sz last * 2)
      ∧ (s.chunks.getLast? = none → c.cap = PAGE / max 1 sz)
      ∧ s'.freelist = s.freelist ∧ s'.mem = s.mem ∧ s'.trace = s.trace := by
  cases hlast : s.chunks.getLast? with
  | some last =>
      by_cases hov : Chunk.capacity sz last * 2 ≤ USIZE
      · refine ⟨{ base := s.nextBase, cap := Chunk.capacity sz last * 2 }, ?_⟩
        simp only [grow, hlast, if_pos hov, Option.some.injEq] at h
        subst h
        simp [Chunk.start, hlast]
      · simp [grow, hlast, if_neg hov] at h
  | none =>
      refine ⟨{ base := s.nextBase, cap := PAGE / max 1 sz }, ?_⟩
      simp only [grow, hlast, Option.some.injEq] at h
      subst h
      simp [Chunk.start, hlast]

/-- Witness for `grow_capacity` at element size 4 on a fresh arena: the
single appended chunk has capacity `4096 / 4 = 1024`. -/
theorem grow_capacity_witness :
    ∃ c : Chunk,
      ({ ptr := 4096, endp := 8192, chunks := [{ base := 4096, cap := 1024 }],
         freelist := [], nextBase := 8192, mem := [], trace := [] }
          : ReapState Unit).chunks
        = (ReapState.new Unit).chunks ++ [c]
      ∧ (4096 : Nat) = c.start
      ∧ (8192 : Nat) = Chunk.endAddr 4 c
      ∧ (∀ last, (ReapState.new Unit).chunks.getLast? = some last →
          c.cap = Chunk.capacity 4 last * 2)
      ∧ ((ReapState.new Unit).chunks.getLast? = none →
          c.cap = PAGE / max 1 4)
      ∧ ([] : List Nat) = (ReapState.new Unit).freelist
      ∧ ([] : List (Nat × Unit)) = (ReapState.new Unit).mem
      ∧ ([] : List Event) = (ReapState.new Unit).trace :=
  grow_capacity 4 (ReapState.new Unit) _ rfl

/-- C2: for a non-zero-sized element type, `allocate` chooses the slot by
exact precedence: pop the freelist top (LIFO) if non-empty, leaving the
bump cursor untouched; otherwise grow exactly when the cursor equals the
limit, then place at the cursor and advance it by one slot. -/
theorem allocate_precedence {V : Type} (sz : Nat) (v : V) (s : ReapState V)
    (hsz : 0 < sz) :
    (∀ a rest, s.freelist = a :: rest →
        allocate sz v s
          = some (a, { s with freelist := rest, mem := (a, v) :: s.mem }))
    ∧ (s.freelist = [] → s.ptr ≠ s.endp →
        allocate sz v s
          = some (s.ptr, { s with ptr := s.ptr + sz,
                                  mem := (s.ptr, v) :: s.mem }))
    ∧ (s.freelist = [] → s.ptr = s.endp →
        allocate sz v s
          = (grow sz s).map (fun s1 =>
              (s1.ptr, { s1 with ptr := s1.ptr + sz,
                                 mem := (s1.ptr, v) :: s1.mem }))) := by
  have hne : sz ≠ 0 := Nat.pos_iff_ne_zero.mp hsz
  refine ⟨?_, ?_, ?_⟩
  · intro a rest hfl
    simp [allocate, hne, hfl]
  · intro hfl hpe
    simp [allocate, hne, hfl, hpe]
  · intro hfl hpe
    cases hg : grow sz s with
    | none => simp [allocate, hne, hfl, hpe, hg]
    | some s1 => simp [allocate, hne, hfl, hpe, hg]

/-- Witness for `allocate_precedence` at size 1 on a state whose freelist
holds the single address 7. -/
theorem allocate_precedence_witness :
    (∀ a rest,
        ({ ptr := 0, endp := 0, chunks := [], freelist := [7],
           nextBase := 4096, mem := [], trace := [] } : ReapState Nat).freelist
          = a :: rest →
        allocate 1 5 { ptr := 0, endp := 0, chunks := [], freelist := [7],
                       nextBase := 4096, mem := [], trace := [] }
          = some (a, { ptr := 0, endp := 0, chunks := [], freelist := rest,
                       nextBase := 4096, mem := [(a, 5)], trace := [] }))
    ∧ (({ ptr := 0, endp := 0, chunks := [], freelist := [7],
          nextBase := 4096, mem := [], trace := [] } : ReapState Nat).freelist
          = [] → (0 : Nat) ≠ 0 →
        allocate 1 5 { ptr := 0, endp := 0, chunks := [], freelist := [7],
                       nextBase := 4096, mem := [], trace := [] }
          = some (0, { ptr := 1, endp := 0, chunks := [], freelist := [7],
                       nextBase := 4096, mem := [(0, 5)], trace := [] }))
    ∧ (({ ptr := 0, endp := 0, chunks := [], freelist := [7],
          nextBase := 4096, mem := [], trace := [] } : ReapState Nat).freelist
          = [] → (0 : Nat) = 0 →
        allocate 1 5 { ptr := 0, endp := 0, chunks := [], freelist := [7],
                       nextBase := 4096, mem := [], trace := [] }
          = (grow 1 { ptr := 0, endp := 0, chunks := [], freelist := [7],
                      nextBase := 4096, mem := [], trace := [] }).map
              (fun s1 => (s1.ptr, { s1 with ptr := s1.ptr + 1,
                                            mem := (s1.ptr, 5) :: s1.mem }))) := by
  have h := allocate_precedence (V := Nat) 1 5
    { ptr := 0, endp := 0, chunks := [], freelist := [7],
      nextBase := 4096, mem := [], trace := [] } (by decide)
  exact h

/-- C4: `allocate` returns a pointer or aborts; the abort (`none`) occurs
exactly when the element type is non-zero-sized, the freelist is empty,
the cursor has reached the limit, and doubling the most recent chunk's
capacity overflows `usize`; `deallocate`, `intoRaw` and `fromRaw` are
total, so no operation returns a recoverable error. -/
theorem allocate_abort_iff {V : Type} (sz : Nat) (v : V) (s : ReapState V) :
    allocate sz v s = none ↔
      (0 < sz ∧ s.freelist = [] ∧ s.ptr = s.endp ∧
        ∃ c, s.chunks.getLast? = some c ∧ USIZE < Chunk.capacity sz c * 2) := by
  rcases Nat.eq_zero_or_pos sz with h0 | h0
  · subst h0
    simp [allocate]
  · have hne : sz ≠ 0 := Nat.pos_iff_ne_zero.mp h0
    cases hfl : s.freelist with
    | cons a rest => simp [allocate, hne, hfl]
    | nil =>
      by_cases hpe : s.ptr = s.endp
      · cases hlast : s.chunks.getLast? with
        | none => simp [allocate, hne, hfl, hpe, grow, hlast]
        | some c =>
          by_cases hov : Chunk.capacity sz c * 2 ≤ USIZE
          all_goals simp [allocate, hne, hfl, hpe, grow, hlast, hov, h0]
          all_goals omega
      · simp [allocate, hne, hfl, hpe]

end Reap

namespace Reap

/-- C3: normal destruction of an `Rp` (its `Drop` impl calling
`deallocate`) runs the pointee's destructor exactly once and then pushes
the slot address onto the freelist — the trace records the destructor run
strictly before the push — and that exact slot is the one handed out by
the next `allocate` on the same arena (non-zero-sized element type). -/
theorem drop_rp_reclaims {V : Type} (sz : Nat) (v : V) (rp : Rp)
    (w : World V) (hsz : 0 < sz) :
    (wDropRp rp w).reap.trace
        = w.reap.trace ++ [Event.dropRun rp.ptr, Event.freePush rp.ptr]
    ∧ countDrops rp.ptr (wDropRp rp w).reap.trace
        = countDrops rp.ptr w.reap.trace + 1
    ∧ (wDropRp rp w).reap.freelist = rp.ptr :: w.reap.freelist
    ∧ (wAllocate sz v (wDropRp rp w)).map (fun pr => pr.1.ptr)
        = some rp.ptr := by
  have hne : sz ≠ 0 := Nat.pos_iff_ne_zero.mp hsz
  refine ⟨?_, ?_, ?_, ?_⟩
  · simp [wDropRp, deallocate]
  · simp [wDropRp, deallocate, countDrops, List.filter_append]
  · simp [wDropRp, deallocate]
  · simp [wAllocate, wDropRp, deallocate, allocate, hne]

/-- Witness for `drop_rp_reclaims`: dropping the pointer to slot 5 on a
fresh arena of element size 1, then allocating again, reuses slot 5. -/
theorem drop_rp_reclaims_witness :
    (wDropRp { ptr := 5 } { reap := ReapState.new Nat, refcount := 1 }).reap.trace
        = (ReapState.new Nat).trace ++ [Event.dropRun 5, Event.freePush 5]
    ∧ countDrops 5
        (wDropRp { ptr := 5 }
          { reap := ReapState.new Nat, refcount := 1 }).reap.trace
        = countDrops 5 (ReapState.new Nat).trace + 1
    ∧ (wDropRp { ptr := 5 }
        { reap := ReapState.new Nat, refcount := 1 }).reap.freelist
        = 5 :: (ReapState.new Nat).freelist
    ∧ (wAllocate 1 0
        (wDropRp { ptr := 5 }
          { reap := ReapState.new Nat, refcount := 1 })).map
            (fun pr => pr.1.ptr)
        = some 5 :=
  drop_rp_reclaims 1 0 { ptr := 5 }
    { reap := ReapState.new Nat, refcount := 1 } (by decide)

/-- C5: decomposing a live `Rp` with `into_raw` and recomposing the exact
pair with `from_raw` yields an equivalent `Rp`: the pointer and the whole
world (so in particular the destructor trace) are unchanged, and the
recomposed pointer dereferences to the same value as before. -/
theorem into_from_raw_roundtrip {V : Type} (rp : Rp) (w : World V) :
    fromRaw (intoRaw rp w).1 (intoRaw rp w).2 = (rp, w)
    ∧ derefRp (fromRaw (intoRaw rp w).1 (intoRaw rp w).2).1
        (fromRaw (intoRaw rp w).1 (intoRaw rp w).2).2.reap
        = derefRp rp w.reap
    ∧ (fromRaw (intoRaw rp w).1 (intoRaw rp w).2).2.reap.trace
        = w.reap.trace :=
  ⟨rfl, rfl, rfl⟩

/-- C8: equality, ordering and hashing of `Rp` delegate to the pointees:
whenever `a` and `b` dereference to `x` and `y`, `Rp` equality is the
pointee equality `eqV x y`, the comparison is `cmpV x y`, and the hash is
`hashV x`. -/
theorem rp_delegates_to_pointee {V : Type} (eqV : V → V → Bool)
    (cmpV : V → V → Ordering) (hashV : V → Nat) (s : ReapState V)
    (a b : Rp) (x y : V) (ha : derefRp a s = some x)
    (hb : derefRp b s = some y) :
    rpEq eqV s a b = some (eqV x y)
    ∧ rpCmp cmpV s a b = some (cmpV x y)
    ∧ rpHash hashV s a = some (hashV x) := by
  refine ⟨?_, ?_, ?_⟩ <;> simp [rpEq, rpCmp, rpHash, ha, hb]

/-- Witness for `rp_delegates_to_pointee` on a heap holding 10 at slot 2
and 20 at slot 3. -/
theorem rp_delegates_to_pointee_witness :
    rpEq (fun x y => x == y)
      ({ ptr := 0, endp := 0, chunks := [], freelist := [], nextBase := 4096,
         mem := [(2, 10), (3, 20)], trace := [] } : ReapState Nat)
      { ptr := 2 } { ptr := 3 } = some ((10 : Nat) == 20)
    ∧ rpCmp compare
        ({ ptr := 0, endp := 0, chunks := [], freelist := [], nextBase := 4096,
           mem := [(2, 10), (3, 20)], trace := [] } : ReapState Nat)
        { ptr := 2 } { ptr := 3 } = some (compare (10 : Nat) 20)
    ∧ rpHash (fun x => x)
        ({ ptr := 0, endp := 0, chunks := [], freelist := [], nextBase := 4096,
           mem := [(2, 10), (3, 20)], trace := [] } : ReapState Nat)
        { ptr := 2 } = some 10 :=
  rp_delegates_to_pointee (fun x y => x == y) compare (fun x => x)
    { ptr := 0, endp := 0, chunks := [], freelist := [], nextBase := 4096,
      mem := [(2, 10), (3, 20)], trace := [] }
    { ptr := 2 } { ptr := 3 } 10 20 (by decide) (by decide)

/-- C9: `into_raw` leaves the arena's entire internal state — chunk list,
freelist, bump cursor, bump limit, heap and trace — unchanged, returns
exactly the wrapped pointer, and does not increment the shared reference
count (the handle is moved into the returned pair, not cloned). -/
theorem into_raw_frame {V : Type} (rp : Rp) (w : World V) :
    (intoRaw rp w).1 = rp.ptr
    ∧ (intoRaw rp w).2.reap.chunks = w.reap.chunks
    ∧ (intoRaw rp w).2.reap.freelist = w.reap.freelist
    ∧ (intoRaw rp w).2.reap.ptr = w.reap.ptr
    ∧ (intoRaw rp w).2.reap.endp = w.reap.endp
    ∧ (intoRaw rp w).2.reap.mem = w.reap.mem
    ∧ (intoRaw rp w).2.reap.trace = w.reap.trace
    ∧ (intoRaw rp w).2.refcount = w.refcount :=
  ⟨rfl, rfl, rfl, rfl, rfl, rfl, rfl, rfl⟩

end Reap

namespace Reap

/-- Run `n` successive zero-sized allocations of `v` (each step is the
state component of `allocate 0 v`; the zero-sized path never fails). -/
def zstStep {V : Type} (v : V) (s : ReapState V) : ReapState V :=
  ((allocate 0 v s).map Prod.snd).getD s

/-- Iterate `zstStep` `n` times. -/
def zstAllocN {V : Type} (v : V) : Nat → ReapState V → ReapState V
  | 0, s => s
  | n + 1, s => zstAllocN v n (zstStep v s)

/-- Drop `n` zero-sized smart pointers in a row (each holds the sentinel
address, so each `Drop` calls `deallocate ZST_SENTINEL`). -/
def dropZstN {V : Type} : Nat → ReapState V → ReapState V
  | 0, s => s
  | n + 1, s => dropZstN n (deallocate ZST_SENTINEL s)

theorem zstStep_eq {V : Type} (v : V) (s : ReapState V) :
    zstStep v s
      = { s with ptr := s.ptr + 1, mem := (ZST_SENTINEL, v) :: s.mem } := by
  simp [zstStep, allocate]

theorem zstAllocN_chunks {V : Type} (v : V) (n : Nat) (s : ReapState V) :
    (zstAllocN v n s).chunks = s.chunks := by
  induction n generalizing s with
  | zero => rfl
  | succ n ih => simp [zstAllocN, ih, zstStep_eq]

theorem zstAllocN_ptr {V : Type} (v : V) (n : Nat) (s : ReapState V) :
    (zstAllocN v n s).ptr = s.ptr + n := by
  induction n generalizing s with
  | zero => rfl
  | succ n ih => simp [zstAllocN, ih, zstStep_eq]; omega

theorem zstAllocN_freelist {V : Type} (v : V) (n : Nat) (s : ReapState V) :
    (zstAllocN v n s).freelist = s.freelist := by
  induction n generalizing s with
  | zero => rfl
  | succ n ih => simp [zstAllocN, ih, zstStep_eq]

theorem dropZstN_freelist_len {V : Type} (n : Nat) (s : ReapState V) :
    (dropZstN n s).freelist.length = s.freelist.length + n := by
  induction n generalizing s with
  | zero => rfl
  | succ n ih => simp [dropZstN, ih, deallocate]; omega

/-- C6: on a zero-sized element type, a single `allocate` succeeds at the
sentinel address and leaves the chunk list (and freelist) untouched while
advancing the imaginary cursor; hence any number of allocations keeps the
chunk count at its initial value while giving each allocation a distinct
ordinal (the cursor advances by exactly one per allocation); and each
resulting pointer is independently destructible — its destruction runs the
destructor exactly once. -/
theorem zst_allocate_no_growth {V : Type} (v : V) (s : ReapState V)
    (n : Nat) :
    (∃ s', allocate 0 v s = some (ZST_SENTINEL, s')
        ∧ s'.chunks = s.chunks ∧ s'.freelist = s.freelist
        ∧ s'.ptr = s.ptr + 1)
    ∧ (zstAllocN v n s).chunks = s.chunks
    ∧ (zstAllocN v n s).ptr = s.ptr + n
    ∧ countDrops ZST_SENTINEL (deallocate ZST_SENTINEL s).trace
        = countDrops ZST_SENTINEL s.trace + 1 := by
  refine ⟨⟨{ s with ptr := s.ptr + 1, mem := (ZST_SENTINEL, v) :: s.mem },
      ?_, rfl, rfl, rfl⟩, zstAllocN_chunks v n s, zstAllocN_ptr v n s, ?_⟩
  · simp [allocate]
  · simp [deallocate, countDrops, List.filter_append]

/-- C10: for a zero-sized element type the freelist only ever grows:
dropping a pointer pushes the sentinel address (length + 1), `allocate`
never consults the freelist (it is returned unchanged), and after `n`
allocations followed by `n` drops on a fresh arena the freelist holds
exactly `n` entries. -/
theorem zst_freelist_never_shrinks {V : Type} (v : V) (s : ReapState V)
    (a : Nat) (n : Nat) :
    (deallocate a s).freelist.length = s.freelist.length + 1
    ∧ (deallocate a s).freelist.head? = some a
    ∧ (∀ pr, allocate 0 v s = some pr → pr.2.freelist = s.freelist)
    ∧ (dropZstN n (zstAllocN v n (ReapState.new V))).freelist.length = n := by
  refine ⟨by simp [deallocate], by simp [deallocate], ?_, ?_⟩
  · intro pr h
    simp [allocate] at h
    rw [← h]
  · rw [dropZstN_freelist_len, zstAllocN_freelist]
    simp [ReapState.new]

end Reap

namespace Reap

/-- Allocator invariant relating a set `live` of slot addresses held by
outstanding smart pointers to the arena state: live addresses and the
freelist are duplicate-free and disjoint, every handed-out address lies
strictly below the bump cursor, and the current limit never exceeds the
fresh-address frontier. -/
def Inv {V : Type} (live : List Nat) (s : ReapState V) : Prop :=
  live.Nodup ∧ s.freelist.Nodup
  ∧ (∀ a ∈ live, a ∉ s.freelist)
  ∧ (∀ a ∈ live, a < s.ptr)
  ∧ (∀ a ∈ s.freelist, a < s.ptr)
  ∧ s.endp ≤ s.nextBase

theorem grow_state {V : Type} (sz : Nat) (s s1 : ReapState V)
    (hsz : 0 < sz) (h : grow sz s = some s1) :
    s1.ptr = s.nextBase ∧ s1.endp = s1.nextBase ∧ s.nextBase ≤ s1.nextBase
    ∧ s1.freelist = s.freelist ∧ s1.mem = s.mem := by
  have hne : sz ≠ 0 := Nat.pos_iff_ne_zero.mp hsz
  cases hlast : s.chunks.getLast? with
  | some last =>
    by_cases hov : Chunk.capacity sz last * 2 ≤ USIZE
    · simp only [grow, hlast, if_pos hov, Option.some.injEq] at h
      subst h
      refine ⟨by simp [Chunk.start], by simp [Chunk.endAddr, hne], ?_, rfl, rfl⟩
      exact Nat.le_add_right _ _
    · simp [grow, hlast, hov] at h
  | none =>
    simp only [grow, hlast, Option.some.injEq] at h
    subst h
    refine ⟨by simp [Chunk.start], by simp [Chunk.endAddr, hne], ?_, rfl, rfl⟩
    exact Nat.le_add_right _ _

/-- C7 (amended to non-zero-sized element types): under the allocator
invariant, a successful `allocate` hands out an address aliasing no
simultaneously-live pointer and re-establishes the invariant (so
simultaneously-live pointers always have pairwise distinct addresses);
the new slot dereferences to the stored value; every previously live
pointer keeps its address and its pointee; and writing through one
pointer is seen by exactly that pointer, leaving every differently
addressed pointer's pointee unchanged. -/
theorem rp_fresh_no_alias {V : Type} (sz : Nat) (v u : V)
    (live : List Nat) (s : ReapState V) (a : Nat) (s' : ReapState V)
    (hsz : 0 < sz) (hinv : Inv live s)
    (h : allocate sz v s = some (a, s')) :
    a ∉ live
    ∧ Inv (a :: live) s'
    ∧ derefRp { ptr := a } s' = some v
    ∧ (∀ b, b ∈ live →
        b ≠ a ∧ derefRp { ptr := b } s' = derefRp { ptr := b } s)
    ∧ (∀ p q : Rp, p.ptr ≠ q.ptr →
        derefRp p (writeRp q u s) = derefRp p s)
    ∧ (∀ q : Rp, derefRp q (writeRp q u s) = some u) := by
  have hne : sz ≠ 0 := Nat.pos_iff_ne_zero.mp hsz
  obtain ⟨hln, hfn, hdisj, hlb, hfb, hen⟩ := hinv
  have hwrite1 : ∀ p q : Rp, p.ptr ≠ q.ptr →
      derefRp p (writeRp q u s) = derefRp p s := by
    intro p q hpq
    simp [derefRp, writeRp, memRead, hpq]
  have hwrite2 : ∀ q : Rp, derefRp q (writeRp q u s) = some u := by
    intro q
    simp [derefRp, writeRp, memRead]
  cases hfl : s.freelist with
  | cons loc rest =>
    simp only [allocate, hne, if_neg hne, hfl, Option.some.injEq,
      Prod.mk.injEq] at h
    obtain ⟨rfl, rfl⟩ := h
    have hlocmem : a ∈ s.freelist := by
      rw [hfl]; exact List.mem_cons_self a rest
    have hfn' : (a :: rest).Nodup := hfl ▸ hfn
    obtain ⟨hlr, hrn⟩ := List.nodup_cons.mp hfn'
    have hanl : a ∉ live := fun hmem => hdisj a hmem hlocmem
    refine ⟨hanl, ?_, ?_, ?_, hwrite1, hwrite2⟩
    · refine ⟨List.nodup_cons.mpr ⟨hanl, hln⟩, hrn, ?_, ?_, ?_, hen⟩
      · intro b hb
        rcases List.mem_cons.mp hb with rfl | hb
        · exact hlr
        · intro hr
          exact hdisj b hb (by rw [hfl]; exact List.mem_cons_of_mem _ hr)
      · intro b hb
        rcases List.mem_cons.mp hb with rfl | hb
        · exact hfb _ hlocmem
        · exact hlb b hb
      · intro b hb
        exact hfb b (by rw [hfl]; exact List.mem_cons_of_mem _ hb)
    · simp [derefRp, memRead]
    · intro b hb
      have hbl : b ≠ a := fun heq => hdisj b hb (heq ▸ hlocmem)
      exact ⟨hbl, by simp [derefRp, memRead, hbl]⟩
  | nil =>
    by_cases hpe : s.ptr = s.endp
    · cases hg : grow sz s with
      | none => simp [allocate, hne, hfl, hpe, hg] at h
      | some s1 =>
        simp only [allocate, hne, if_neg hne, hfl, hpe, hg, if_pos rfl,
          Option.some.injEq, Prod.mk.injEq] at h
        obtain ⟨rfl, rfl⟩ := h
        obtain ⟨e1, e2, e3, e4, e5⟩ := grow_state sz s s1 hsz hg
        have hbound : ∀ b ∈ live, b < s1.ptr := by
          intro b hb
          have := hlb b hb
          omega
        have hanl : s1.ptr ∉ live :=
          fun hmem => Nat.lt_irrefl _ (hbound _ hmem)
        refine ⟨hanl, ?_, ?_, ?_, hwrite1, hwrite2⟩
        · refine ⟨List.nodup_cons.mpr ⟨hanl, hln⟩, ?_, ?_, ?_, ?_, ?_⟩
          · simp only [e4, hfl]
            exact List.nodup_nil
          · intro b _
            simp [e4, hfl]
          · intro b hb
            show b < s1.ptr + sz
            rcases List.mem_cons.mp hb with rfl | hb
            · omega
            · have := hbound b hb
              omega
          · intro b hb
            rw [e4, hfl] at hb
            simp at hb
          · show s1.endp ≤ s1.nextBase
            omega
        · simp [derefRp, memRead]
        · intro b hb
          have hbl : b ≠ s1.ptr := Nat.ne_of_lt (hbound b hb)
          refine ⟨hbl, ?_⟩
          simp [derefRp, memRead, hbl, e5]
    · simp only [allocate, hne, if_neg hne, hfl, hpe, if_neg hpe,
        Option.some.injEq, Prod.mk.injEq] at h
      obtain ⟨rfl, rfl⟩ := h
      have hanl : s.ptr ∉ live :=
        fun hmem => Nat.lt_irrefl _ (hlb _ hmem)
      refine ⟨hanl, ?_, ?_, ?_, hwrite1, hwrite2⟩
      · refine ⟨List.nodup_cons.mpr ⟨hanl, hln⟩, hfn, ?_, ?_, ?_, hen⟩
        · intro b _
          simp [hfl]
        · intro b hb
          show b < s.ptr + sz
          rcases List.mem_cons.mp hb with rfl | hb
          · omega
          · have := hlb b hb
            omega
        · intro b hb
          rw [hfl] at hb
          simp at hb
      · simp [derefRp, memRead]
      · intro b hb
        have hbl : b ≠ s.ptr := Nat.ne_of_lt (hlb b hb)
        exact ⟨hbl, by simp [derefRp, memRead, hbl]⟩

/-- C7 is false as stated for zero-sized element types: two successive
zero-sized allocations with no intervening drop yield two simultaneously
live smart pointers whose slot addresses are both the sentinel 1, i.e.
they alias. -/
theorem rp_zst_alias_cex :
    (allocate 0 () (ReapState.new Unit)).map Prod.fst = some ZST_SENTINEL
    ∧ ((allocate 0 () (ReapState.new Unit)).bind
        (fun pr => (allocate 0 () pr.2).map Prod.fst))
      = some ZST_SENTINEL := by
  exact ⟨rfl, rfl⟩

/-- Witness for `rp_fresh_no_alias`: the first allocation of 9 at element
size 1 on a fresh arena lands at address 4096 and establishes the
invariant with it live. -/
theorem rp_fresh_no_alias_witness :
    (4096 : Nat) ∉ ([] : List Nat)
    ∧ Inv (4096 :: ([] : List Nat))
        { ptr := 4097, endp := 8192, chunks := [{ base := 4096, cap := 4096 }],
          freelist := [], nextBase := 8192, mem := [(4096, 9)], trace := [] }
    ∧ derefRp { ptr := 4096 }
        ({ ptr := 4097, endp := 8192, chunks := [{ base := 4096, cap := 4096 }],
           freelist := [], nextBase := 8192, mem := [(4096, 9)], trace := [] }
          : ReapState Nat)
        = some 9
    ∧ (∀ b, b ∈ ([] : List Nat) →
        b ≠ 4096 ∧ derefRp { ptr := b }
            ({ ptr := 4097, endp := 8192,
               chunks := [{ base := 4096, cap := 4096 }],
               freelist := [], nextBase := 8192, mem := [(4096, 9)],
               trace := [] } : ReapState Nat)
          = derefRp { ptr := b } (ReapState.new Nat))
    ∧ (∀ p q : Rp, p.ptr ≠ q.ptr →
        derefRp p (writeRp q 7 (ReapState.new Nat))
          = derefRp p (ReapState.new Nat))
    ∧ (∀ q : Rp, derefRp q (writeRp q 7 (ReapState.new Nat)) = some 7) :=
  rp_fresh_no_alias 1 9 7 [] (ReapState.new Nat) 4096
    { ptr := 4097, endp := 8192, chunks := [{ base := 4096, cap := 4096 }],
      freelist := [], nextBase := 8192, mem := [(4096, 9)], trace := [] }
    (by decide) (by unfold Inv; decide) (by decide)

end Reap
